import Mathlib

/-!
# Verification of the realme-updates-tracker core (`tracker.py`)

A shallow embedding of the record normalization, change detection and
archival engine of `tracker.py`, together with proofs and refutations of
the specification's claims about it.

Python strings are modelled as Lean `String` (lists of characters), and
the handful of Python string primitives the tracker uses (`split`,
`replace`, `strip`, `endswith`, `in`) are implemented below on `List Char`
with the exact Python semantics (left-to-right, non-overlapping matching).
Python exceptions (`IndexError` from a missing positional field,
`ValueError` from `datetime.strptime`) are modelled with `Except PyError`.
Python dictionaries are modelled either as association lists (where
insertion order is relevant) or as functions to `Option` (where only
lookup is observable).
-/

set_option maxHeartbeats 1000000

namespace RealmeTracker

/-! ## Python string primitives -/

/-- Python `str.split(sep)` for a one-character separator: splits at every
occurrence of `sep`; the result is never empty and keeps empty segments,
e.g. `"".split('/') = [""]` and `"a//b".split('/') = ["a", "", "b"]`. -/
def pySplit (sep : Char) : List Char → List (List Char)
  | [] => [[]]
  | c :: rest =>
    if c = sep then [] :: pySplit sep rest
    else
      match pySplit sep rest with
      | [] => [[c]]
      | h :: t => (c :: h) :: t

/-- Fuel-driven worker for `pySplitSub`; the fuel is always at least the
length of the list, so the `0, cs` fallback is never reached. -/
def pySplitSubGo (sep : List Char) : Nat → List Char → List (List Char)
  | _, [] => [[]]
  | 0, cs => [cs]
  | fuel + 1, c :: rest =>
    if (!sep.isEmpty) && sep.isPrefixOf (c :: rest) then
      [] :: pySplitSubGo sep fuel (List.drop (sep.length - 1) rest)
    else
      match pySplitSubGo sep fuel rest with
      | [] => [[c]]
      | h :: t => (c :: h) :: t

/-- Python `str.split(sep)` for a multi-character separator, scanning left
to right with non-overlapping matches. -/
def pySplitSub (sep cs : List Char) : List (List Char) :=
  pySplitSubGo sep cs.length cs

/-- Fuel-driven worker for `pyReplaceL`; the fuel is always at least the
length of the list, so the `0, cs` fallback is never reached. -/
def pyReplaceGo (pat rep : List Char) : Nat → List Char → List Char
  | _, [] => []
  | 0, cs => cs
  | fuel + 1, c :: rest =>
    if (!pat.isEmpty) && pat.isPrefixOf (c :: rest) then
      rep ++ pyReplaceGo pat rep fuel (List.drop (pat.length - 1) rest)
    else
      c :: pyReplaceGo pat rep fuel rest

/-- Python `str.replace(pat, rep)`: replaces every occurrence of `pat`,
scanning left to right with non-overlapping matches (no-op for an empty
pattern; the tracker never calls it with one). -/
def pyReplaceL (pat rep cs : List Char) : List Char :=
  pyReplaceGo pat rep cs.length cs

/-- Python substring test `pat in s`. -/
def containsSub (s pat : List Char) : Bool :=
  match s with
  | [] => pat.isEmpty
  | _ :: rest => pat.isPrefixOf s || containsSub rest pat

/-- The characters Python `str.strip()` removes. -/
def pyIsSpace (c : Char) : Bool :=
  c == ' ' || c == '\t' || c == '\n' || c == '\r' || c == '\x0b' || c == '\x0c'

/-- Python `str.strip()`. -/
def pyStrip (s : String) : String :=
  String.mk (((s.data.dropWhile pyIsSpace).reverse.dropWhile pyIsSpace).reverse)

/-- Python `str.endswith(c)` for a single character. -/
def pyEndsWith (s : String) (c : Char) : Bool :=
  decide (s.data.getLast? = some c)

/-- Python `str.startswith(p)`. -/
def pyStartsWith (s : String) (p : List Char) : Bool :=
  p.isPrefixOf s.data

/-- `String` version of `pySplit`. -/
def pySplitS (sep : Char) (s : String) : List String :=
  (pySplit sep s.data).map String.mk

/-- `String` version of `pySplitSub`. -/
def pySplitSubS (sep : String) (s : String) : List String :=
  (pySplitSub sep.data s.data).map String.mk

/-- `String` version of `pyReplaceL`. -/
def pyReplaceS (s pat rep : String) : String :=
  String.mk (pyReplaceL pat.data rep.data s.data)

/-! ## The build-version regular expression

`tracker.py` extracts the version with
`re.search(r'([A-Z0-9+]+_[0-9]+(?:.|_)[A-Z]+(?:.|_)[0-9]+)', text)`.
Since `.` matches any character except a newline and `_` is not a newline,
`(?:.|_)` is just "any character except newline".  The matcher below
reproduces `re.search`'s leftmost-match rule and the greedy,
backtracking semantics of `+`. -/

/-- Character class `[A-Z0-9+]`. -/
def isBuildA (c : Char) : Bool := c.isUpper || c.isDigit || c == '+'

/-- Character class `[0-9]`. -/
def isBuildD (c : Char) : Bool := c.isDigit

/-- Character class `[A-Z]`. -/
def isBuildU (c : Char) : Bool := c.isUpper

/-- `(?:.|_)`: any character except a newline. -/
def isAnyChar (c : Char) : Bool := c != '\n'

/-- Greedy `p+` followed by continuation `k`, trying the longest run
first and backtracking to shorter nonempty runs, exactly as a regex
engine does.  `n` is the number of characters still allowed in the run. -/
def greedyPlusGo (p : Char → Bool) (k : List Char → Option (List Char))
    (cs : List Char) : Nat → Option (List Char)
  | 0 => none
  | n + 1 =>
    match k (cs.drop (n + 1)) with
    | some r => some (cs.take (n + 1) ++ r)
    | none => greedyPlusGo p k cs n

/-- Greedy `p+` followed by continuation `k`. -/
def greedyPlus (p : Char → Bool) (k : List Char → Option (List Char))
    (cs : List Char) : Option (List Char) :=
  greedyPlusGo p k cs (cs.takeWhile p).length

/-- A single any-character (`(?:.|_)`) followed by continuation `k`. -/
def matchAnyThen (k : List Char → Option (List Char)) :
    List Char → Option (List Char)
  | [] => none
  | c :: rest => if isAnyChar c then (k rest).map (c :: ·) else none

/-- Match `[A-Z0-9+]+_[0-9]+(?:.|_)[A-Z]+(?:.|_)[0-9]+` against a prefix
of `cs`, returning the matched characters. -/
def matchBuildAt (cs : List Char) : Option (List Char) :=
  greedyPlus isBuildA (fun r1 =>
    match r1 with
    | '_' :: r2 =>
      (greedyPlus isBuildD (matchAnyThen (greedyPlus isBuildU (matchAnyThen
        (fun r => greedyPlus isBuildD (fun _ => some []) r)))) r2).map ('_' :: ·)
    | _ => none) cs

/-- `re.search`: try each start position from the left. -/
def searchFrom : List Char → Option String
  | [] => none
  | c :: rest =>
    match matchBuildAt (c :: rest) with
    | some m => some (String.mk m)
    | none => searchFrom rest

/-- `re.search(build-pattern, s).group(1)`, or `none` when there is no
match (Python: `AttributeError` on `.group`). -/
def reSearchBuild (s : String) : Option String :=
  searchFrom s.data

/-! ## Data model -/

/-- The Python exceptions the tracker can raise while normalizing one raw
item: `IndexError` (absent positional field) and `ValueError`
(`datetime.strptime` on malformed input). -/
inductive PyError where
  | indexError : PyError
  | valueError : PyError
deriving DecidableEq

instance {ε α : Type} [DecidableEq ε] [DecidableEq α] : DecidableEq (Except ε α) :=
  fun x y =>
    match x, y with
    | Except.ok a, Except.ok b =>
      if h : a = b then Decidable.isTrue (by rw [h]) else Decidable.isFalse (by simp [h])
    | Except.error a, Except.error b =>
      if h : a = b then Decidable.isTrue (by rw [h]) else Decidable.isFalse (by simp [h])
    | Except.ok _, Except.error _ => Decidable.isFalse (by simp)
    | Except.error _, Except.ok _ => Decidable.isFalse (by simp)

/-- One canonical update record, the dictionary built by `parse_html` for
each scraped item. -/
structure UpdateRecord where
  device : String
  codename : String
  region : String
  system : String
  version : String
  date : String
  size : String
  md5 : String
  download : String
  changelog : String
deriving DecidableEq

/-- One raw scraped item after HTML selection, the input of the Field
Normalizer: the title text, the system label, the ordered list of
`div.software-field` texts (version, date, size, md5 — trailing fields may
be absent), the `data-href` download attribute, and the changelog text
(lines joined by newlines, as `get_text("\n", strip=True)` yields). -/
structure RawItem where
  title : String
  system : String
  fields : List String
  download : String
  changelog : String

/-! ## Field Normalizer (`clean_text`, `parse_html`) -/

/-- `clean_text`: `text.strip().replace('  ', ' ')`. -/
def clean_text (text : String) : String :=
  pyReplaceS (pyStrip text) "  " " "

/-- The title step of `parse_html`: clean, then substitute the localized
brand glyphs `真我` with `realme `. -/
def titleOf (raw : String) : String :=
  let t := clean_text raw
  if containsSub t.data "真我".data then pyReplaceS t "真我" "realme " else t

/-- The version/codename step of `parse_html`: search the first field for
the build pattern; on a missing field (`IndexError`) or no match
(`AttributeError`), both become `"Unknown"`; otherwise the codename is the
version text before the first `_`. -/
def versionCodename (fields : List String) : String × String :=
  match fields[0]? with
  | none => ("Unknown", "Unknown")
  | some t =>
    match reSearchBuild t with
    | none => ("Unknown", "Unknown")
    | some v => (v, String.mk ((pySplit '_' v.data).headD []))

/-- Leap-year test of the proleptic Gregorian calendar used by
`datetime`. -/
def isLeap (y : Nat) : Bool :=
  (y % 4 == 0 && y % 100 != 0) || y % 400 == 0

/-- Days in a month, as `datetime` validates them. -/
def daysInMonth (y m : Nat) : Nat :=
  if m = 2 then (if isLeap y then 29 else 28)
  else if m = 4 ∨ m = 6 ∨ m = 9 ∨ m = 11 then 30 else 31

/-- A run of at most `maxLen` digits making up a number, as the `%Y`,
`%m`, `%d` directives of `strptime` accept. -/
def parseDigits (maxLen : Nat) (cs : List Char) : Option Nat :=
  if cs ≠ [] ∧ cs.length ≤ maxLen ∧ cs.all (·.isDigit) then
    some (cs.foldl (fun a c => a * 10 + (c.toNat - 48)) 0)
  else none

/-- `datetime.strptime(s, "%Y/%m/%d")`: `none` models `ValueError`. -/
def strptimeYMD (s : String) : Option (Nat × Nat × Nat) :=
  match pySplit '/' s.data with
  | [ys, ms, ds] =>
    match parseDigits 4 ys, parseDigits 2 ms, parseDigits 2 ds with
    | some y, some m, some d =>
      if 1 ≤ y ∧ y ≤ 9999 ∧ 1 ≤ m ∧ m ≤ 12 ∧ 1 ≤ d ∧ d ≤ daysInMonth y m then
        some (y, m, d)
      else none
    | _, _, _ => none
  | _ => none

/-- Zero-padded two-digit field of `strftime`. -/
def pad2 (n : Nat) : String :=
  if n < 10 then "0" ++ toString n else toString n

/-- Zero-padded four-digit year field of `strftime`. -/
def pad4 (n : Nat) : String :=
  if n < 10 then "000" ++ toString n
  else if n < 100 then "00" ++ toString n
  else if n < 1000 then "0" ++ toString n
  else toString n

/-- The date step of `parse_html`: take field 1, strip, split on `": "`,
take the value part, strip; when the first `/`-token has length 4 parse as
`%Y/%m/%d` and reformat as `%d/%m/%Y`.  A missing field index
(`IndexError`) yields `"Unknown"`; a malformed year-first date raises
`ValueError`, which `parse_html` does not catch. -/
def dateOf (fields : List String) : Except PyError String :=
  match fields[1]? with
  | none => Except.ok "Unknown"
  | some t =>
    match (pySplitSubS ": " (pyStrip t))[1]? with
    | none => Except.ok "Unknown"
    | some d0 =>
      let date := pyStrip d0
      if ((pySplit '/' date.data).headD []).length = 4 then
        match strptimeYMD date with
        | none => Except.error PyError.valueError
        | some (y, m, d) =>
          Except.ok (pad2 d ++ "/" ++ pad2 m ++ "/" ++ pad4 y)
      else Except.ok date

/-- The size-suffix normalization of `parse_html`:
`if size.endswith('G'): size = size.replace('G', 'GB')`. -/
def normalize_size (size : String) : String :=
  if pyEndsWith size 'G' then pyReplaceS size "G" "GB" else size

/-- The size step of `parse_html`: `clean_text(fields[2].span.text)` then
suffix normalization.  A missing field index raises an uncaught
`IndexError`. -/
def sizeField (fields : List String) : Except PyError String :=
  match fields[2]? with
  | none => Except.error PyError.indexError
  | some t => Except.ok (normalize_size (clean_text t))

/-- The md5 step of `parse_html`: `fields[3].text.strip().split(": ")[1]`,
with `IndexError` (absent field or absent separator) caught and turned
into `"Unknown"`. -/
def md5Of (fields : List String) : String :=
  match fields[3]? with
  | none => "Unknown"
  | some t =>
    match (pySplitSubS ": " (pyStrip t))[1]? with
    | none => "Unknown"
    | some v => v

/-- Python `str.splitlines()` for text whose line breaks are `\n` (which
is what `get_text("\n", strip=True)` produces): split at newlines and
drop a final empty piece. -/
def splitlines (s : String) : List String :=
  let ps := pySplit '\n' s.data
  (if ps.getLast? = some [] then ps.dropLast else ps).map String.mk

/-- The changelog re-flow of `parse_html`: bullet lines (starting with
`●` or `*`) pass through, every other line becomes a bold header line. -/
def changelogOf (raw : String) : String :=
  (splitlines raw).foldl
    (fun acc line =>
      if pyStartsWith line ['●'] || pyStartsWith line ['*'] then
        acc ++ line ++ "\n"
      else acc ++ "**" ++ line ++ "**:\n")
    ""

/-- The loop body of `parse_html`: normalize one raw item into an
`UpdateRecord`.  The date step runs before the size step, as in the
source, so a date `ValueError` surfaces before a size `IndexError`. -/
def parse_item (item : RawItem) (region : String) : Except PyError UpdateRecord :=
  match dateOf item.fields with
  | Except.error e => Except.error e
  | Except.ok date =>
    match sizeField item.fields with
    | Except.error e => Except.error e
    | Except.ok size =>
      Except.ok
        { device := titleOf item.title
          codename := (versionCodename item.fields).2
          region := region
          system := clean_text item.system
          version := (versionCodename item.fields).1
          date := date
          size := size
          md5 := md5Of item.fields
          download := item.download
          changelog := changelogOf item.changelog }

/-- `parse_html`: normalize every raw item of a region page; the first
uncaught exception aborts the whole list. -/
def parse_html (html : List RawItem) (region : String) :
    Except PyError (List UpdateRecord) :=
  html.mapM (fun item => parse_item item region)

/-! ## Device Registry (`update_device`) -/

/-- The guard of `update_device`:
`if DEVICES[codename] and device not in DEVICES[codename].split('/')`. -/
def shouldAppend (existing device : String) : Bool :=
  (existing != "") && !(((pySplit '/' existing.data).map String.mk).contains device)

/-- `update_device` acting on the `DEVICES` dictionary, modelled as a
lookup function.  An unseen codename is stored with `device` as sole
value; a seen, truthy value gets `device` appended after `/` unless it is
already one of the `/`-separated members. -/
def update_device (devices : String → Option String) (codename device : String) :
    String → Option String :=
  match devices codename with
  | some existing =>
    if shouldAppend existing device then
      fun k => if k = codename then some (existing ++ "/" ++ device) else devices k
    else devices
  | none => fun k => if k = codename then some device else devices k

/-! ## Snapshot Differencer (`diff_yaml`) -/

/-- `diff_yaml` after file loading: `none` for the previous snapshot
models the missing-file first run (the function prints a skip notice and
returns Python `None`); equal lengths yield the positional version
comparison; unequal lengths yield every current record paired with every
occurrence of its codename among the codenames new to the current
snapshot, or Python `None` when there is no new codename. -/
def diff_yaml (latest : List UpdateRecord) (old? : Option (List UpdateRecord)) :
    Option (List UpdateRecord) :=
  match old? with
  | none => none
  | some old =>
    if latest.length = old.length then
      some ((latest.zip old).filterMap
        (fun p => if p.1.version = p.2.version then none else some p.1))
    else
      let old_codenames := old.map (fun i => i.codename)
      let new_codenames := latest.map (fun i => i.codename)
      let changes := new_codenames.filter (fun i => !(old_codenames.contains i))
      if changes.isEmpty then none
      else some (latest.flatMap (fun i =>
        (changes.filter (fun codename => codename == i.codename)).map (fun _ => i)))

/-! ## Run Orchestrator notification pass (`main`) -/

def SITE : String := "https://realmeupdater.com"

/-- `generate_message`: the Telegram markdown payload for one record. -/
def generate_message (update : UpdateRecord) : String :=
  "New update available!\n" ++
  "*Device:* " ++ update.device ++ " \n" ++
  "*Codename:* #" ++ update.codename ++ " \n" ++
  "*Region:* [" ++ update.region ++ "](" ++ SITE ++ "/downloads/latest/" ++
    update.region ++ ")\n" ++
  "*System:* " ++ update.system ++ " \n" ++
  "*Version:* `" ++ update.version ++ "` \n" ++
  "*Release Date:* " ++ update.date ++ " \n" ++
  "*Size*: " ++ update.size ++ " \n" ++
  "*MD5*: `" ++ update.md5 ++ "`\n" ++
  "*Download*: [Here](" ++ update.download ++ ")\n" ++
  "*Changelog*: ```\n" ++ update.changelog ++ "\n```\n" ++
  "[Latest Updates](" ++ SITE ++ "/downloads/latest/" ++ update.codename ++ "/) - " ++
  "[All Updates](" ++ SITE ++ "/downloads/archive/" ++ update.codename ++ "/)\n" ++
  "@RealmeUpdatesTracker"

/-- The notification pass of `main` over one region's changed records:
`for update in changes: if not update["version"]: continue; ...` — a
record is skipped exactly when its version string is falsy (empty), and
otherwise a message is generated (and posted). -/
def notifyMessages (changes : List UpdateRecord) : List String :=
  changes.filterMap
    (fun u => if u.version = "" then none else some (generate_message u))

/-- The records `main` passes on to `archive` (the same falsy-version
guard applies, since `continue` skips the archive call too). -/
def archivedRecords (changes : List UpdateRecord) : List UpdateRecord :=
  changes.filter (fun u => !(u.version == ""))

/-! ## Archive Accumulator (`archive`) -/

/-- Python `dict` update `m[k] = v` on an association list: replace the
value of an existing key in place, else append the pair at the end. -/
def dictSet (m : List (String × String)) (k v : String) : List (String × String) :=
  if (m.lookup k).isSome then
    m.map (fun p => if p.1 = k then (k, v) else p)
  else m ++ [(k, v)]

/-- The archive-key derivation of `archive`:
`link.split('/')[-1].split('_')[0] if 'sign' not in link else
link.split('/')[-1].split('_')[1]`.  `none` models the `IndexError` when
a marker link's last path segment has no second `_`-segment. -/
def archiveCodename (link : String) : Option String :=
  let lastSeg := (pySplit '/' link.data).getLastD []
  if containsSub link.data "sign".data then
    ((pySplit '_' lastSeg)[1]?).map String.mk
  else
    some (String.mk ((pySplit '_' lastSeg).headD []))

/-- The per-codename archive files on disk, as a lookup from codename to
the inner `version → download` map of `data/archive/<codename>.yml`
(`none` when the file does not exist). -/
def ArchiveState : Type := String → Option (List (String × String))

/-- `archive(update)`: derive the key from the download link, then merge
`version → download` into that codename's map (creating a singleton map
when the file is absent).  `none` models the uncaught `IndexError` of the
key derivation. -/
def archive (st : ArchiveState) (update : UpdateRecord) : Option ArchiveState :=
  match archiveCodename update.download with
  | none => none
  | some codename =>
    let inner : List (String × String) :=
      match st codename with
      | some m => dictSet m update.version update.download
      | none => [(update.version, update.download)]
    some (fun k => if k = codename then some inner else st k)

/-! ## Specification-side definitions and concrete fixtures -/

/-- Index-for-index pairing of the two snapshots, emitting every current
record whose version differs from its positional counterpart — the
specification's description of the equal-length Differencer policy. -/
def positionalDiff : List UpdateRecord → List UpdateRecord → List UpdateRecord
  | n :: lt, o :: ol =>
    if n.version = o.version then positionalDiff lt ol
    else n :: positionalDiff lt ol
  | _, _ => []

/-- A record with the fields the Differencer and the orchestrator read. -/
def mkRec (c v : String) : UpdateRecord :=
  { device := "", codename := c, region := "", system := "", version := v,
    date := "", size := "", md5 := "", download := "", changelog := "" }

/-- A raw item whose md5 positional field (index 3) is absent. -/
def c1ItemMd5Absent : RawItem :=
  { title := "realme X50", system := "realme UI",
    fields := ["Version: RMX1_11.A.22", "Release Date: 2020/01/02", "2.5G"],
    download := "https://d/RMX1_11.A.22.zip", changelog := "" }

/-- A raw item whose size positional field (index 2) is absent. -/
def c1ItemSizeAbsent : RawItem :=
  { title := "realme X50", system := "realme UI",
    fields := ["Version: RMX1_11.A.22", "Release Date: 2020/01/02"],
    download := "https://d/RMX1_11.A.22.zip", changelog := "" }

/-- A changed record whose version is the sentinel `"Unknown"`. -/
def c2UnknownRec : UpdateRecord :=
  { device := "realme X", codename := "Unknown", region := "India",
    system := "realme UI", version := "Unknown", date := "Unknown",
    size := "2.5GB", md5 := "Unknown", download := "https://d/f.zip",
    changelog := "" }

def c3A1 : UpdateRecord := mkRec "A" "1"

def c3A2 : UpdateRecord := mkRec "A" "2"

def c3B1 : UpdateRecord := mkRec "B" "1"

def c3B2 : UpdateRecord := mkRec "B" "2"

def c4Old : UpdateRecord := mkRec "A" "1"

def c4New : UpdateRecord := mkRec "A" "2"

/-- An archive state holding one file, `X.yml`, with one archived pair. -/
def c5Prior : ArchiveState :=
  fun k => if k = "X" then some [("1", "L1")] else none

/-- A record re-announcing version `"1"` of codename `X` under a new
download link. -/
def c5Rec : UpdateRecord :=
  { mkRec "X" "1" with download := "https://dl/X_new.zip" }

def c6St : ArchiveState := fun _ => none

def c6Rec : UpdateRecord :=
  { mkRec "whatever" "RMX1_11.A.22" with download := "https://d/RMX1_11.A.22.zip" }

/-- A raw item whose version's first `_`-segment carries the regional-SKU
suffix marker `EX`. -/
def c7Item : RawItem :=
  { title := "realme 6", system := "realme UI",
    fields := ["Version: RMX2020EX_11.A.30", "Release Date: 2020/01/02",
               "2.5G", "MD5: aa"],
    download := "https://d/z.zip", changelog := "" }

def c10Old : List UpdateRecord := [mkRec "A" "1", mkRec "B" "1"]

def c10New : List UpdateRecord := [mkRec "A" "2"]

/-! ## Helper lemmas -/

theorem string_mk_data (s : String) : String.mk s.data = s := rfl

theorem string_data_append (a b : String) : (a ++ b).data = a.data ++ b.data := rfl

theorem pySplit_ne_nil (sep : Char) (cs : List Char) : pySplit sep cs ≠ [] := by
  induction cs with
  | nil => simp [pySplit]
  | cons c rest ih =>
    simp only [pySplit]
    split
    · simp
    · cases h : pySplit sep rest with
      | nil => simp
      | cons a t => simp

theorem pySplit_not_mem (sep : Char) (cs : List Char) (h : sep ∉ cs) :
    pySplit sep cs = [cs] := by
  induction cs with
  | nil => rfl
  | cons c rest ih =>
    rw [List.mem_cons, not_or] at h
    have hc : ¬ c = sep := fun he => h.1 he.symm
    simp [pySplit, hc, ih h.2]

theorem pySplit_append (sep : Char) (xs ys : List Char) :
    ∃ p, p ≠ [] ∧ pySplit sep (xs ++ sep :: ys) = p ++ pySplit sep ys := by
  induction xs with
  | nil => exact ⟨[[]], by simp, by simp [pySplit]⟩
  | cons c xs ih =>
    obtain ⟨p, hp, heq⟩ := ih
    by_cases hc : c = sep
    · exact ⟨[] :: p, by simp, by simp [pySplit, hc, heq]⟩
    · cases p with
      | nil => exact absurd rfl hp
      | cons q t =>
        exact ⟨(c :: q) :: t, by simp, by simp [pySplit, hc, heq]⟩

theorem pySplitS_single (s : String) (h : '/' ∉ s.data) : pySplitS '/' s = [s] := by
  simp [pySplitS, pySplit_not_mem _ _ h, string_mk_data]

theorem mem_split_concat (a b : String) (h : '/' ∉ b.data) :
    b ∈ pySplitS '/' (a ++ "/" ++ b) := by
  obtain ⟨p, hp, heq⟩ := pySplit_append '/' a.data b.data
  have hdata : (a ++ "/" ++ b).data = a.data ++ '/' :: b.data := by
    rw [string_data_append, string_data_append]
    rw [show "/".data = ['/'] from rfl, List.append_assoc]
    rfl
  rw [pySplitS, hdata, heq, pySplit_not_mem _ _ h]
  simp [string_mk_data]

theorem pyReplaceGo_lone_g : ∀ (xs : List Char) (fuel : Nat), xs.length < fuel →
    'G' ∉ xs → pyReplaceGo ['G'] ['G', 'B'] fuel (xs ++ ['G']) = xs ++ ['G', 'B'] := by
  intro xs
  induction xs with
  | nil =>
    intro fuel hf _
    cases fuel with
    | zero => omega
    | succ f => simp [pyReplaceGo, List.isPrefixOf]
  | cons c xs ih =>
    intro fuel hf hmem
    cases fuel with
    | zero => omega
    | succ f =>
      rw [List.mem_cons, not_or] at hmem
      have hc : ('G' == c) = false := beq_eq_false_iff_ne.mpr hmem.1
      have hpre : (List.isPrefixOf ['G'] (c :: (xs ++ ['G']))) = false := by
        simp [List.isPrefixOf, hc]
      have hlen : xs.length < f := by
        simp only [List.length_cons] at hf
        omega
      simp [pyReplaceGo, hpre, ih f hlen hmem.2]

/-! ## Claim theorems -/

/-- Claim C8, counterexample.  The claim says only the single trailing
`G` is expanded, so `"1G2G"` would become `"1G2GB"`; the code's
`size.replace('G', 'GB')` replaces every `G`, giving `"1GB2GB"`. -/
theorem size_replace_not_only_trailing :
    normalize_size "1G2G" = "1GB2GB" ∧ normalize_size "1G2G" ≠ "1G2GB" := by
  constructor
  · decide
  · decide

/-- Claim C8 (corrected): inputs not ending in the bare letter `G` pass
through unchanged; inputs ending in `G` have EVERY occurrence of `G`
replaced by `GB` — in particular, when `G` occurs only as the final
character, the suffix is expanded to `GB` exactly as the claim states. -/
theorem size_norm_trailing (s : String) :
    (pyEndsWith s 'G' = false → normalize_size s = s) ∧
    (pyEndsWith s 'G' = true → s.data.count 'G' = 1 →
      normalize_size s = String.mk (s.data.dropLast ++ ['G', 'B'])) := by
  constructor
  · intro h
    simp [normalize_size, h]
  · intro h hcount
    have hlast : s.data.getLast? = some 'G' := by
      simpa [pyEndsWith] using h
    have hne : s.data ≠ [] := by
      intro h0
      rw [h0] at hlast
      simp at hlast
    have hg : s.data.getLast hne = 'G' := by
      rw [List.getLast?_eq_getLast s.data hne] at hlast
      exact Option.some.inj hlast
    have hdecomp : s.data = s.data.dropLast ++ ['G'] := by
      conv_lhs => rw [← List.dropLast_append_getLast hne]
      rw [hg]
    have hnot : 'G' ∉ s.data.dropLast := by
      have hc2 : s.data.count 'G' = s.data.dropLast.count 'G' + 1 := by
        conv_lhs => rw [hdecomp]
        simp
      rw [hc2] at hcount
      have h0 : s.data.dropLast.count 'G' = 0 := by omega
      exact List.count_eq_zero.1 h0
    have hrepl : pyReplaceS s "G" "GB" = String.mk (s.data.dropLast ++ ['G', 'B']) := by
      simp only [pyReplaceS, pyReplaceL]
      conv_lhs => rw [hdecomp]
      rw [pyReplaceGo_lone_g _ _
        (by simp only [List.length_append, List.length_cons, List.length_nil]; omega) hnot]
    simp [normalize_size, h, hrepl]

/-- Claim C8, witness: a size whose only `G` is the trailing one. -/
theorem size_norm_trailing_witness : normalize_size "2.5G" = "2.5GB" := by
  have h := (size_norm_trailing "2.5G").2 (by decide) (by decide)
  simpa using h

/-- Claim C9, counterexample.  Registering the pair `("c", "a/b")` twice
appends the device a second time, because the membership test splits the
stored value at `/` and never sees the composite name `"a/b"` as a
member; the joined string after two registrations is `"a/b/a/b"`, after
one it is `"a/b"`. -/
theorem register_slash_device_not_idempotent :
    (update_device (update_device (fun _ => none) "c" "a/b") "c" "a/b") "c" ≠
      (update_device (fun _ => none) "c" "a/b") "c" := by
  decide

/-- Claim C9 (corrected): `update_device` is idempotent for every prior
registry state and every (codename, device) pair whose device string does
not itself contain the separator `/`; a device string containing `/` can
be appended repeatedly (see the counterexample). -/
theorem register_idempotent_no_slash (m : String → Option String) (c d : String)
    (h : '/' ∉ d.data) :
    update_device (update_device m c d) c d = update_device m c d := by
  cases hm : m c with
  | none =>
    have happ : shouldAppend d d = false := by
      have hcont : (((pySplit '/' d.data).map String.mk).contains d) = true := by
        rw [pySplit_not_mem _ _ h]
        simp [string_mk_data]
      simp only [shouldAppend, hcont, Bool.not_true, Bool.and_false]
    simp [update_device, hm, happ]
  | some s =>
    cases hcond : shouldAppend s d with
    | true =>
      have happ2 : shouldAppend (s ++ "/" ++ d) d = false := by
        have hcont2 : (((pySplit '/' (s ++ "/" ++ d).data).map String.mk).contains d)
            = true := by
          simpa [pySplitS] using mem_split_concat s d h
        simp only [shouldAppend, hcont2, Bool.not_true, Bool.and_false]
      simp [update_device, hm, hcond, happ2]
    | false =>
      simp [update_device, hm, hcond]

/-- Claim C9, witness: a slash-free device registered twice into the
empty registry. -/
theorem register_idempotent_no_slash_witness :
    update_device (update_device (fun _ => none) "c" "ab") "c" "ab" =
      update_device (fun _ => none) "c" "ab" :=
  register_idempotent_no_slash (fun _ => none) "c" "ab" (by decide)

/-- Claim C10 (confirmed): with snapshots of unequal length, when every
current codename already occurs among the previous snapshot's codenames
the `changes` list is empty and `diff_yaml` falls through to Python
`None` — no record is emitted, even if versions differ positionally. -/
theorem diff_unequal_no_new_codenames (latest old : List UpdateRecord)
    (h : latest.length ≠ old.length)
    (hsub : ∀ c ∈ latest.map (fun n => n.codename), c ∈ old.map (fun o => o.codename)) :
    diff_yaml latest (some old) = none := by
  have hch : (latest.map (fun i => i.codename)).filter
      (fun i => !((old.map (fun i => i.codename)).contains i)) = [] := by
    rw [List.filter_eq_nil_iff]
    intro c hc
    simp [hsub c hc]
  simp only [diff_yaml, if_neg h]
  rw [hch]
  simp

/-- Claim C10, witness: current `[A version 2]` against previous
`[A version 1, B version 1]` — lengths differ, `A`'s version changed,
yet nothing is emitted. -/
theorem diff_unequal_no_new_codenames_witness :
    diff_yaml c10New (some c10Old) = none :=
  diff_unequal_no_new_codenames c10New c10Old (by decide) (by decide)

theorem zip_filterMap_positionalDiff :
    ∀ (latest old : List UpdateRecord),
      (latest.zip old).filterMap
        (fun p => if p.1.version = p.2.version then none else some p.1) =
      positionalDiff latest old := by
  intro latest
  induction latest with
  | nil =>
    intro old
    simp [positionalDiff]
  | cons n lt ih =>
    intro old
    cases old with
    | nil => simp [positionalDiff]
    | cons o ol =>
      rw [positionalDiff, ← ih ol]
      by_cases hv : n.version = o.version <;>
        simp [List.zip_cons_cons, List.filterMap_cons, hv]

theorem positionalDiff_nil_of_all :
    ∀ (latest old : List UpdateRecord),
      (∀ (i : Nat) (n o : UpdateRecord),
        latest[i]? = some n → old[i]? = some o → n.version = o.version) →
      positionalDiff latest old = [] := by
  intro latest
  induction latest with
  | nil =>
    intro old _
    rfl
  | cons n lt ih =>
    intro old hall
    cases old with
    | nil => rfl
    | cons o ol =>
      have h0 : n.version = o.version := hall 0 n o (by simp) (by simp)
      rw [positionalDiff, if_pos h0]
      exact ih ol (fun i a b ha hb => hall (i + 1) a b (by simpa) (by simpa))

/-- Claim C4 (confirmed): with snapshots of equal length, `diff_yaml`
pairs records index-for-index and emits exactly the current records whose
version differs from the positionally paired previous record; when every
paired version is equal the output is the empty list. -/
theorem diff_equal_positional (latest old : List UpdateRecord)
    (h : latest.length = old.length) :
    diff_yaml latest (some old) = some (positionalDiff latest old) ∧
    ((∀ (i : Nat) (n o : UpdateRecord),
        latest[i]? = some n → old[i]? = some o → n.version = o.version) →
      diff_yaml latest (some old) = some []) := by
  have hmain : diff_yaml latest (some old) = some (positionalDiff latest old) := by
    simp only [diff_yaml, if_pos h]
    rw [zip_filterMap_positionalDiff latest old]
  refine ⟨hmain, fun hall => ?_⟩
  rw [hmain, positionalDiff_nil_of_all latest old hall]

/-- Claim C4, witness: equal-length snapshots where the single paired
version differs, so exactly that current record is emitted. -/
theorem diff_equal_positional_witness :
    diff_yaml [c4New] (some [c4Old]) = some [c4New] := by
  have h := (diff_equal_positional [c4New] [c4Old] rfl).1
  rw [h]
  decide

theorem nodup_filter_beq (l : List String) (hl : l.Nodup) (a : String) :
    l.filter (fun c => c == a) = if a ∈ l then [a] else [] := by
  induction l with
  | nil => simp
  | cons b l ih =>
    rw [List.nodup_cons] at hl
    by_cases hb : b = a
    · subst hb
      rw [List.filter_cons_of_pos (by simp)]
      rw [ih hl.2]
      simp [hl.1]
    · have hbeq : (b == a) = false := beq_eq_false_iff_ne.mpr hb
      rw [List.filter_cons_of_neg (by simp [hbeq])]
      rw [ih hl.2]
      have hmem : (a ∈ b :: l) ↔ (a ∈ l) := by
        rw [List.mem_cons]
        constructor
        · rintro (he | hl2)
          · exact absurd he.symm hb
          · exact hl2
        · exact Or.inr
      rw [if_congr hmem rfl rfl]

theorem flatMap_changes_filter (l : List UpdateRecord) (changes : List String)
    (h : changes.Nodup) :
    l.flatMap (fun i =>
      (changes.filter (fun codename => codename == i.codename)).map (fun _ => i)) =
    l.filter (fun i => changes.contains i.codename) := by
  induction l with
  | nil => simp
  | cons r l ih =>
    rw [List.flatMap_cons, nodup_filter_beq changes h r.codename, ih]
    by_cases hm : r.codename ∈ changes
    · rw [if_pos hm, List.filter_cons_of_pos (by simpa)]
      rfl
    · rw [if_neg hm, List.filter_cons_of_neg (by simpa)]
      rfl

/-- Claim C3, counterexample.  Previous snapshot `[A]`, current snapshot
two records of the new codename `B`: the codename `B` occurs twice in
`changes`, so the list comprehension emits each current `B` record twice
— not "each such record exactly once" as claimed. -/
theorem diff_unequal_duplicate_emission :
    diff_yaml [c3B1, c3B2] (some [c3A1]) = some [c3B1, c3B1, c3B2, c3B2] ∧
    ([c3B1, c3B1, c3B2, c3B2] : List UpdateRecord) ≠ [c3B1, c3B2] := by
  constructor
  · decide
  · decide

/-- Claim C3 (corrected): with snapshots of unequal length, the emitted
records are exactly the current records whose codename is absent from the
previous snapshot (and Python `None` is returned when there are none) —
but a record is emitted once PER current record sharing its codename, so
"exactly once" only holds when the current snapshot's codenames are
pairwise distinct, in which case the output has no duplicates. -/
theorem diff_unequal_new_codenames (latest old : List UpdateRecord)
    (h : latest.length ≠ old.length) :
    (∀ r : UpdateRecord,
      (∃ out, diff_yaml latest (some old) = some out ∧ r ∈ out) ↔
      (r ∈ latest ∧ r.codename ∉ old.map (fun o => o.codename))) ∧
    ((latest.map (fun n => n.codename)).Nodup →
      ∀ out, diff_yaml latest (some old) = some out → out.Nodup) := by
  simp only [diff_yaml, if_neg h]
  constructor
  · intro r
    by_cases hc : ((latest.map (fun i => i.codename)).filter
        (fun i => !((old.map (fun i => i.codename)).contains i))).isEmpty
    · rw [if_pos hc]
      rw [List.isEmpty_iff] at hc
      constructor
      · rintro ⟨out, hout, _⟩
        cases hout
      · rintro ⟨hr, hnot⟩
        exfalso
        have hmem : r.codename ∈ (latest.map (fun i => i.codename)).filter
            (fun i => !((old.map (fun i => i.codename)).contains i)) := by
          refine List.mem_filter.2 ⟨List.mem_map.2 ⟨r, hr, rfl⟩, ?_⟩
          simp [hnot]
        rw [hc] at hmem
        simp at hmem
    · rw [if_neg hc]
      constructor
      · rintro ⟨out, hout, hrout⟩
        rw [Option.some.injEq] at hout
        rw [← hout] at hrout
        rw [List.mem_flatMap] at hrout
        obtain ⟨i, hi, hri⟩ := hrout
        rw [List.mem_map] at hri
        obtain ⟨cc, hcc, hccr⟩ := hri
        rw [List.mem_filter] at hcc
        have hcc2 : cc = i.codename := by simpa using hcc.2
        have hch := List.mem_filter.1 (hcc2 ▸ hcc.1)
        refine ⟨hccr ▸ hi, ?_⟩
        have := hch.2
        simp only [Bool.not_eq_true'] at this
        rw [← hccr]
        simpa using this
      · rintro ⟨hr, hnot⟩
        refine ⟨_, rfl, ?_⟩
        rw [List.mem_flatMap]
        refine ⟨r, hr, ?_⟩
        rw [List.mem_map]
        refine ⟨r.codename, ?_, rfl⟩
        rw [List.mem_filter]
        refine ⟨?_, by simp⟩
        rw [List.mem_filter]
        exact ⟨List.mem_map.2 ⟨r, hr, rfl⟩, by simp [hnot]⟩
  · intro hnodup out hout
    by_cases hc : ((latest.map (fun i => i.codename)).filter
        (fun i => !((old.map (fun i => i.codename)).contains i))).isEmpty
    · rw [if_pos hc] at hout
      cases hout
    · rw [if_neg hc] at hout
      rw [Option.some.injEq] at hout
      rw [← hout]
      rw [flatMap_changes_filter latest _ (hnodup.filter _)]
      exact (List.Nodup.of_map _ hnodup).filter _

/-- Claim C3, witness: previous `[A v1, A v2]`, current `[B v1]` — the
single current record with the new codename `B` is emitted. -/
theorem diff_unequal_new_codenames_witness :
    ∃ out, diff_yaml [c3B1] (some [c3A1, c3A2]) = some out ∧ c3B1 ∈ out :=
  ((diff_unequal_new_codenames [c3B1] [c3A1, c3A2] (by decide)).1 c3B1).2
    ⟨by decide, by decide⟩

theorem lookup_map_replace (m : List (String × String)) (k v : String)
    (hsome : (m.lookup k).isSome) :
    (m.map (fun p => if p.1 = k then (k, v) else p)).lookup k = some v := by
  induction m with
  | nil => simp [List.lookup] at hsome
  | cons p m ih =>
    obtain ⟨a, b⟩ := p
    by_cases hp : a = k
    · have hhead : (if (a, b).1 = k then (k, v) else (a, b)) = (k, v) := by
        simp [hp]
      rw [List.map_cons, hhead]
      simp [List.lookup]
    · have hka : (k == a) = false := beq_eq_false_iff_ne.mpr (fun he => hp he.symm)
      have hhead : (if (a, b).1 = k then (k, v) else (a, b)) = (a, b) := by
        simp [hp]
      rw [List.map_cons, hhead]
      simp only [List.lookup, hka]
      exact ih (by simpa [List.lookup, hka] using hsome)

theorem lookup_append_single (m : List (String × String)) (k v : String)
    (hnone : m.lookup k = none) :
    (m ++ [(k, v)]).lookup k = some v := by
  induction m with
  | nil => simp [List.lookup]
  | cons p m ih =>
    obtain ⟨a, b⟩ := p
    by_cases hp : k = a
    · subst hp
      simp [List.lookup] at hnone
    · have hka : (k == a) = false := beq_eq_false_iff_ne.mpr hp
      simp only [List.cons_append, List.lookup, hka]
      exact ih (by simpa [List.lookup, hka] using hnone)

theorem dictSet_lookup (m : List (String × String)) (k v : String) :
    (dictSet m k v).lookup k = some v := by
  rw [dictSet]
  split
  · exact lookup_map_replace m k v (by assumption)
  · rename_i hn
    exact lookup_append_single m k v (Option.not_isSome_iff_eq_none.1 hn)

theorem dictSet_mem_ne (m : List (String × String)) (k v k2 v2 : String)
    (h : k2 ≠ k) : ((k2, v2) ∈ dictSet m k v) ↔ (k2, v2) ∈ m := by
  rw [dictSet]
  split
  · constructor
    · intro hmem
      rw [List.mem_map] at hmem
      obtain ⟨p, hp, hpe⟩ := hmem
      by_cases hpk : p.1 = k
      · rw [if_pos hpk] at hpe
        injection hpe with h1 h2
        exact absurd h1.symm h
      · rw [if_neg hpk] at hpe
        exact hpe ▸ hp
    · intro hmem
      rw [List.mem_map]
      refine ⟨(k2, v2), hmem, ?_⟩
      rw [if_neg (by simpa using h)]
  · rw [List.mem_append]
    constructor
    · rintro (hm | hm)
      · exact hm
      · simp only [List.mem_singleton, Prod.mk.injEq] at hm
        exact absurd hm.1 h
    · exact Or.inl

/-- Claim C5, counterexample.  The prior archive map for `X` holds the
pair `("1", "L1")`; archiving a record with the same version `"1"` but a
different link overwrites the pair, so `("1", "L1")` is no longer
present — prior entries CAN be evicted. -/
theorem archive_overwrites_same_version :
    c5Prior "X" = some [("1", "L1")] ∧
    ∃ st', archive c5Prior c5Rec = some st' ∧
      st' "X" = some [("1", "https://dl/X_new.zip")] ∧
      ("1", "L1") ∉ [("1", "https://dl/X_new.zip")] := by
  refine ⟨by decide, _, rfl, by decide, by decide⟩

/-- Claim C5 (corrected): after a successful `archive(record)`, the
derived codename's map holds `version → download`, every prior pair whose
version differs from the record's version is preserved exactly (and
nothing else at those versions appears), and other codenames' maps are
untouched; a prior pair sharing the record's version has its link
overwritten (see the counterexample). -/
theorem archive_preserves_other_versions (st : ArchiveState) (u : UpdateRecord)
    (st' : ArchiveState) (c : String)
    (h : archive st u = some st') (hc : archiveCodename u.download = some c) :
    (∃ m, st' c = some m ∧ m.lookup u.version = some u.download ∧
      ∀ v l : String, v ≠ u.version → (((v, l) ∈ (st c).getD []) ↔ (v, l) ∈ m)) ∧
    (∀ k, k ≠ c → st' k = st k) := by
  simp only [archive, hc, Option.some.injEq] at h
  constructor
  · cases hstc : st c with
    | none =>
      refine ⟨[(u.version, u.download)], ?_, by simp [List.lookup], ?_⟩
      · rw [← h]
        simp [hstc]
      · intro v l hv
        simp only [hstc, Option.getD_none, List.not_mem_nil, false_iff,
          List.mem_singleton, Prod.mk.injEq, not_and]
        intro he
        exact absurd he hv
    | some m0 =>
      refine ⟨dictSet m0 u.version u.download, ?_, dictSet_lookup m0 _ _, ?_⟩
      · rw [← h]
        simp [hstc]
      · intro v l hv
        simp only [Option.getD_some]
        exact (dictSet_mem_ne m0 u.version u.download v l hv).symm
  · intro k hk
    rw [← h]
    simp [hk]

/-- Claim C5, witness: the archived pair is present under the derived
key after a successful archive call. -/
theorem archive_preserves_other_versions_witness :
    ∃ st', archive c5Prior c5Rec = some st' ∧
      ∃ m, st' "X" = some m ∧ m.lookup c5Rec.version = some c5Rec.download := by
  refine ⟨_, rfl, ?_⟩
  obtain ⟨⟨m, hm1, hm2, _⟩, _⟩ :=
    archive_preserves_other_versions c5Prior c5Rec _ "X" rfl (by decide)
  exact ⟨m, hm1, hm2⟩

/-- Claim C6 (confirmed): the key under which `archive` stores a record
is `archiveCodename` of the download URL — the first `_`-segment of the
URL's last path segment, or the second `_`-segment when the URL contains
the marker `sign` — and does not depend on the record's `codename`
field: only the key equal to that derived codename can change, and
replacing the codename field leaves the whole operation unchanged. -/
theorem archive_key_from_url (st : ArchiveState) (u : UpdateRecord)
    (st' : ArchiveState) (h : archive st u = some st') :
    (∀ k, st' k ≠ st k → archiveCodename u.download = some k) ∧
    (∀ name, archive st { u with codename := name } = archive st u) ∧
    (archiveCodename u.download =
      (if containsSub u.download.data "sign".data then
        ((pySplit '_' ((pySplit '/' u.download.data).getLastD []))[1]?).map String.mk
      else
        some (String.mk
          ((pySplit '_' ((pySplit '/' u.download.data).getLastD [])).headD [])))) := by
  refine ⟨?_, fun name => rfl, rfl⟩
  intro k hk
  cases hc : archiveCodename u.download with
  | none =>
    simp only [archive, hc] at h
    exact absurd h (by simp)
  | some c =>
    simp only [archive, hc, Option.some.injEq] at h
    by_cases hkc : k = c
    · rw [hkc]
    · exfalso
      apply hk
      rw [← h]
      simp [hkc]

/-- Claim C6, witness: a concrete archive call on the empty state. -/
theorem archive_key_from_url_witness :
    ∃ st', archive c6St c6Rec = some st' ∧
      (∀ k, st' k ≠ c6St k → archiveCodename c6Rec.download = some k) := by
  refine ⟨_, rfl, ?_⟩
  exact (archive_key_from_url c6St c6Rec _ rfl).1

/-- Claim C1, counterexample.  A raw item whose size positional field
(index 2) is absent: `parse_html` accesses `item.select(...)[2]` outside
any `try` block, so the missing field raises an uncaught `IndexError`
instead of yielding `"Unknown"` — no record is produced at all. -/
theorem missing_size_field_raises :
    parse_item c1ItemSizeAbsent "India" = Except.error PyError.indexError := by
  decide

/-- Claim C1 (corrected): only the md5 positional field may be absent
with the claimed behavior — for a three-field item (md5 absent) whose
date text parses cleanly, `parse_html` yields `"Unknown"` for md5, does
not raise, and produces the complete record for the remaining fields;
an item missing the size (and hence possibly the date) positional field
instead raises an uncaught `IndexError` (see the counterexample). -/
theorem parse_missing_trailing_fields (item : RawItem) (region : String) :
    (∀ d : String, item.fields.length = 3 → dateOf item.fields = Except.ok d →
      parse_item item region = Except.ok
        { device := titleOf item.title
          codename := (versionCodename item.fields).2
          region := region
          system := clean_text item.system
          version := (versionCodename item.fields).1
          date := d
          size := normalize_size (clean_text (item.fields.getD 2 ""))
          md5 := "Unknown"
          download := item.download
          changelog := changelogOf item.changelog }) ∧
    (item.fields.length ≤ 2 → ∃ e, parse_item item region = Except.error e) := by
  constructor
  · intro d hlen hdate
    obtain ⟨a, b, c, hf⟩ : ∃ a b c, item.fields = [a, b, c] := by
      match hx : item.fields, hlen with
      | [a, b, c], _ => exact ⟨a, b, c, rfl⟩
    simp only [parse_item, hdate]
    rw [hf]
    simp [sizeField, md5Of, versionCodename]
  · intro hlen
    have hsz : item.fields[2]? = none := by
      rw [List.getElem?_eq_none]
      omega
    cases hdate : dateOf item.fields with
    | error e => exact ⟨e, by simp [parse_item, hdate]⟩
    | ok d => exact ⟨PyError.indexError, by simp [parse_item, hdate, sizeField, hsz]⟩

/-- Claim C1, witness: a three-field item (md5 absent) is normalized to
a complete record with md5 `"Unknown"`. -/
theorem parse_missing_trailing_fields_witness :
    parse_item c1ItemMd5Absent "India" = Except.ok
      { device := "realme X50", codename := "RMX1", region := "India",
        system := "realme UI", version := "RMX1_11.A.22", date := "02/01/2020",
        size := "2.5GB", md5 := "Unknown",
        download := "https://d/RMX1_11.A.22.zip", changelog := "" } := by
  have h := (parse_missing_trailing_fields c1ItemMd5Absent "India").1
    "02/01/2020" rfl (by decide)
  rw [h]
  decide

/-- Claim C7, counterexample.  The version `RMX2020EX_11.A.30` carries
the regional-SKU marker `EX` in its first `_`-segment; the claim says the
marker is stripped (codename `RMX2020`), but the code sets the codename
to the raw prefix `RMX2020EX` — nothing is stripped. -/
theorem codename_keeps_suffix_marker :
    ∃ rec, parse_item c7Item "India" = Except.ok rec ∧
      rec.codename = "RMX2020EX" ∧ rec.codename ≠ "RMX2020" := by
  refine ⟨_, rfl, by decide, by decide⟩

/-- Claim C7 (corrected): whenever the first field's text matches the
build pattern, the codename is exactly the matched version text up to the
first `_` — verbatim, with no vendor suffix marker stripped. -/
theorem codename_exact_version_head (item : RawItem) (region : String)
    (rec : UpdateRecord) (t v : String)
    (h0 : item.fields[0]? = some t) (hre : reSearchBuild t = some v)
    (hok : parse_item item region = Except.ok rec) :
    rec.version = v ∧ rec.codename = String.mk ((pySplit '_' v.data).headD []) := by
  have hvc : versionCodename item.fields =
      (v, String.mk ((pySplit '_' v.data).headD [])) := by
    simp only [versionCodename, h0, hre]
  cases hdate : dateOf item.fields with
  | error e =>
    simp only [parse_item, hdate] at hok
    exact absurd hok (by simp)
  | ok d =>
    cases hsize : sizeField item.fields with
    | error e =>
      simp only [parse_item, hdate, hsize] at hok
      exact absurd hok (by simp)
    | ok sz =>
      simp only [parse_item, hdate, hsize, Except.ok.injEq] at hok
      rw [← hok]
      simp [hvc]

/-- Claim C7, witness: the matching item yields codename equal to the
version prefix before the first underscore. -/
theorem codename_exact_version_head_witness :
    ∃ rec, parse_item c7Item "IN" = Except.ok rec ∧
      rec.version = "RMX2020EX_11.A.30" ∧
      rec.codename = String.mk ((pySplit '_' "RMX2020EX_11.A.30".data).headD []) :=
  ⟨_, rfl, codename_exact_version_head c7Item "IN" _ "Version: RMX2020EX_11.A.30"
    "RMX2020EX_11.A.30" (by decide) (by decide) rfl⟩

/-- Claim C2 (code_bug): the orchestrator's guard is
`if not update["version"]: continue`, which skips only a falsy (empty)
version string.  A record whose version is the sentinel `"Unknown"` is
truthy, so its message IS generated (and posted) and the record is
archived — the expected suppression never happens.  The spec's intent
(skip `"Unknown"`) and the dead falsy check indicate the code is the
slip. -/
theorem unknown_version_not_suppressed :
    notifyMessages [c2UnknownRec] = [generate_message c2UnknownRec] ∧
    notifyMessages [c2UnknownRec] ≠ [] ∧
    archivedRecords [c2UnknownRec] = [c2UnknownRec] := by
  refine ⟨rfl, ?_, rfl⟩
  rw [show notifyMessages [c2UnknownRec] = [generate_message c2UnknownRec] from rfl]
  simp

end RealmeTracker
